import Mathlib

/-!
Verification of the forced-damped-pendulum simulation engine
(`scriptProblem2.py`): state derivative, time-grid construction,
integration driver, angle normalization, stroboscopic (Poincaré)
sampling, and the bifurcation parameter sweep.

The numerical code is shallowly embedded over `ℝ` (machine doubles are
modelled as real numbers).  The external ODE solver `scipy.odeint` is an
opaque library call in the source; it is modelled as an abstract
`OdeSolver` whose only assumed property is its documented contract that
the returned solution array has one row per requested time point.
-/

namespace Pendulum

/-- Module-level constant `g = 9.8` (m/s²). -/
noncomputable def g : ℝ := 9.8

/-- Module-level constant `l = 1.0` (m). -/
noncomputable def l : ℝ := 1.0

/-- Module-level constant `m = 1.0` (kg). -/
noncomputable def m : ℝ := 1.0

/-- Natural frequency `omega_0 = sqrt(g / l)`. -/
noncomputable def omega_0 : ℝ := Real.sqrt (g / l)

/-- Damping ratio `zeta = 0.1`. -/
noncomputable def zeta : ℝ := 0.1

/-- Damping coefficient `b = 2 * m * zeta * omega_0`. -/
noncomputable def b : ℝ := 2 * m * zeta * omega_0

/-- Drive frequency `omega_d = omega_0` (resonance). -/
noncomputable def omega_d : ℝ := omega_0

/-- Drive period `T = 2 * pi / omega_d`. -/
noncomputable def T : ℝ := 2 * Real.pi / omega_d

/-- Floored real modulo, the semantics of `np.mod a c = a - c * floor (a / c)`
(for a positive divisor the result is always non-negative). -/
noncomputable def fmod (a c : ℝ) : ℝ := a - c * ⌊a / c⌋

/-- The angle normalization applied at line 32 of the source:
`theta_mod = np.mod (theta + pi) (2 pi) - pi`. -/
noncomputable def normAngle (θ : ℝ) : ℝ := fmod (θ + Real.pi) (2 * Real.pi) - Real.pi

lemma omega_0_pos : 0 < omega_0 := by
  have : (0 : ℝ) < g / l := by norm_num [g, l]
  exact Real.sqrt_pos.mpr this

lemma T_pos : 0 < T := by
  have h2 : (0 : ℝ) < 2 * Real.pi := by positivity
  exact div_pos h2 (by rw [omega_d]; exact omega_0_pos)

lemma T_ne_zero : T ≠ 0 := ne_of_gt T_pos

lemma fmod_eq_mul_fract (a c : ℝ) (hc : c ≠ 0) :
    fmod a c = c * Int.fract (a / c) := by
  unfold fmod Int.fract
  field_simp

lemma fmod_nonneg (a c : ℝ) (hc : 0 < c) : 0 ≤ fmod a c := by
  rw [fmod_eq_mul_fract a c (ne_of_gt hc)]
  exact mul_nonneg hc.le (Int.fract_nonneg _)

lemma fmod_lt (a c : ℝ) (hc : 0 < c) : fmod a c < c := by
  rw [fmod_eq_mul_fract a c (ne_of_gt hc)]
  calc c * Int.fract (a / c) < c * 1 :=
        (mul_lt_mul_left hc).mpr (Int.fract_lt_one _)
    _ = c := mul_one c

lemma two_pi_pos : (0 : ℝ) < 2 * Real.pi := by positivity

/-- The normalized angle always lies in the half-open interval `[-pi, pi)`. -/
lemma normAngle_mem (θ : ℝ) : -Real.pi ≤ normAngle θ ∧ normAngle θ < Real.pi := by
  unfold normAngle
  constructor
  · have h := fmod_nonneg (θ + Real.pi) (2 * Real.pi) two_pi_pos
    linarith
  · have h := fmod_lt (θ + Real.pi) (2 * Real.pi) two_pi_pos
    linarith

/-- `fmod` is the identity on `[0, c)`. -/
lemma fmod_eq_self (a c : ℝ) (hc : 0 < c) (h0 : 0 ≤ a) (h1 : a < c) :
    fmod a c = a := by
  unfold fmod
  have hfl : ⌊a / c⌋ = 0 := by
    rw [Int.floor_eq_zero_iff]
    constructor
    · exact div_nonneg h0 hc.le
    · rw [div_lt_one hc]; exact h1
  rw [hfl]
  simp

/-- `normAngle` fixes every point of `[-pi, pi)`. -/
lemma normAngle_eq_self (x : ℝ) (h0 : -Real.pi ≤ x) (h1 : x < Real.pi) :
    normAngle x = x := by
  unfold normAngle
  rw [fmod_eq_self (x + Real.pi) (2 * Real.pi) two_pi_pos (by linarith) (by linarith)]
  ring

lemma normAngle_idem (θ : ℝ) : normAngle (normAngle θ) = normAngle θ := by
  obtain ⟨h0, h1⟩ := normAngle_mem θ
  exact normAngle_eq_self _ h0 h1

/-- `normAngle pi = -pi`: the wrap of the angle `pi` itself. -/
lemma normAngle_pi : normAngle Real.pi = -Real.pi := by
  unfold normAngle fmod
  have h : (Real.pi + Real.pi) / (2 * Real.pi) = 1 := by
    rw [div_eq_one_iff_eq (ne_of_gt two_pi_pos)]
    ring
  rw [h]
  simp
  ring

/-- The ODE right-hand side `pendulum_deriv` (source lines 17–21): given the
state `(theta, theta_dot)`, the time `t` and the physical parameters, it
returns the pair `(dtheta_dt, dtheta_dot_dt)` with
`dtheta_dot_dt = -b / m * theta_dot - g / l * sin theta + F0 / (m * l) * cos (omega_d * t)`,
translated with Python's operator precedence. -/
noncomputable def pendulum_deriv (state : ℝ × ℝ) (t : ℝ)
    (b' m' g' l' F0 ωd : ℝ) : ℝ × ℝ :=
  (state.2, -b' / m' * state.2 - g' / l' * Real.sin state.1
    + F0 / (m' * l') * Real.cos (ωd * t))

/-- Real-valued `np.arange start stop step`: the samples
`start, start + step, start + 2 step, …`, of length
`max 0 (ceil ((stop - start) / step))`. -/
noncomputable def arange (start stop step : ℝ) : List ℝ :=
  (List.range (⌈(stop - start) / step⌉.toNat)).map fun k : ℕ => start + (k : ℝ) * step

/-- Integer `np.arange start stop step` (used for stroboscopic index lists):
`start, start + step, …` strictly below `stop`. -/
def arangeNat (start stop step : ℕ) : List ℕ :=
  (List.range ((stop - start + step - 1) / step)).map fun k => start + k * step

/-- Model of the opaque library integrator `scipy.integrate.odeint`: a
deterministic function from the right-hand side, the initial state and the
requested time points to the solution rows, together with `odeint`'s
documented contract that the output has one row per requested time point. -/
structure OdeSolver where
  run : ((ℝ × ℝ) → ℝ → (ℝ × ℝ)) → (ℝ × ℝ) → List ℝ → List (ℝ × ℝ)
  length_run : ∀ f s0 ts, (run f s0 ts).length = ts.length

/-- The four arrays returned by `simulate`. -/
structure SimResult where
  t : List ℝ
  theta : List ℝ
  theta_dot : List ℝ
  theta_mod : List ℝ

/-- The raw solver output `sol = odeint(pendulum_deriv, [0, 0], t, args)` of
`simulate` (source line 29), for time grid `arange 0 (t_max * T) (T / P)`. -/
noncomputable def rawTrajectory (S : OdeSolver) (F0 : ℝ) (t_max : ℤ) (P : ℕ) :
    List (ℝ × ℝ) :=
  S.run (fun s τ => pendulum_deriv s τ b m g l F0 omega_d) (0, 0)
    (arange 0 (t_max * T) (T / P))

/-- The simulation driver `simulate F0 t_max points_per_period`
(source lines 25–33): builds the time grid `t = arange 0 (t_max * T) dt` with
`dt = T / points_per_period`, integrates from the fixed initial state
`(0, 0)`, splits the solution into the `theta` and `theta_dot` columns, and
wraps the angles into `theta_mod`. -/
noncomputable def simulate (S : OdeSolver) (F0 : ℝ) (t_max : ℤ) (P : ℕ) :
    SimResult :=
  let t := arange 0 (t_max * T) (T / P)
  let sol := rawTrajectory S F0 t_max P
  { t := t
    theta := sol.map Prod.fst
    theta_dot := sol.map Prod.snd
    theta_mod := (sol.map Prod.fst).map normAngle }

/-- A trivial concrete integrator (constant solution), used to instantiate
the abstract `OdeSolver` on concrete inputs. -/
def constSolver : OdeSolver where
  run := fun _ s0 ts => ts.map fun _ => s0
  length_run := fun _ _ ts => ts.length_map _

/-- A concrete integrator whose every reported angle is `pi`. -/
noncomputable def piSolver : OdeSolver where
  run := fun _ _ ts => ts.map fun _ => (Real.pi, 0)
  length_run := fun _ _ ts => ts.length_map _

lemma arange_pend (t_max : ℤ) (P : ℕ) (hP : 0 < P) :
    arange 0 (t_max * T) (T / P) =
      (List.range (t_max * P).toNat).map fun k : ℕ => (k : ℝ) * (T / P) := by
  unfold arange
  have hPne : ((P : ℝ)) ≠ 0 := Nat.cast_ne_zero.mpr (Nat.pos_iff_ne_zero.mp hP)
  have hdiv : ((t_max : ℝ) * T - 0) / (T / P) = ((t_max * P : ℤ) : ℝ) := by
    rw [sub_zero, div_div_eq_mul_div, mul_right_comm,
      mul_div_assoc, div_self T_ne_zero, mul_one]
    push_cast
    ring
  rw [hdiv, Int.ceil_intCast]
  simp

lemma arange_pend_length (t_max : ℤ) (P : ℕ) (hP : 0 < P) :
    (arange 0 (t_max * T) (T / P)).length = (t_max * P).toNat := by
  rw [arange_pend t_max P hP, List.length_map, List.length_range]

lemma rawTrajectory_length (S : OdeSolver) (F0 : ℝ) (t_max : ℤ) (P : ℕ) :
    (rawTrajectory S F0 t_max P).length =
      (arange 0 (t_max * T) (T / P)).length := by
  unfold rawTrajectory
  exact S.length_run _ _ _

lemma simulate_theta_mod_length (S : OdeSolver) (F0 : ℝ) (t_max : ℤ) (P : ℕ)
    (hP : 0 < P) :
    (simulate S F0 t_max P).theta_mod.length = (t_max * P).toNat := by
  unfold simulate
  simp [rawTrajectory_length, arange_pend_length _ _ hP]

/-- The stroboscopic sampler: the source selects
`theta_mod[np.arange(offset, len(t), P)]` (lines 53 and 55, with
`offset = P = 100`; lines 71–72 with `offset = 100 * 100`, `P = 100`).
Fancy indexing with an index array is element selection at those indices. -/
def poincareSample (traj : List ℝ) (P offset : ℕ) : List ℝ :=
  (arangeNat offset traj.length P).filterMap fun i => traj[i]?

/-- Index selection at a list of in-bounds indices never drops an element. -/
lemma filterMap_getElem?_of_lt (l : List ℝ) :
    ∀ idx : List ℕ, (∀ i ∈ idx, i < l.length) →
      idx.filterMap (fun i => l[i]?) = idx.map fun i => l.getD i 0 := by
  intro idx
  induction idx with
  | nil => intro _; rfl
  | cons a as ih =>
    intro h
    have ha : a < l.length := h a (List.mem_cons_self a as)
    have has : ∀ i ∈ as, i < l.length := fun i hi => h i (List.mem_cons_of_mem a hi)
    rw [List.filterMap_cons, List.map_cons,
      List.getElem?_eq_getElem ha, List.getD_eq_getElem l 0 ha, ih has]

/-- Every element of `arangeNat offset N P` is an index strictly below `N`
(for a positive stride). -/
lemma arangeNat_mem_lt (offset N P : ℕ) (hP : 0 < P) :
    ∀ i ∈ arangeNat offset N P, i < N := by
  intro i hi
  unfold arangeNat at hi
  obtain ⟨k, hk, rfl⟩ := List.mem_map.mp hi
  rw [List.mem_range] at hk
  have hk1 : (k + 1) * P ≤ N - offset + P - 1 :=
    (Nat.le_div_iff_mul_le hP).mp hk
  have hk2 : k * P + P ≤ N - offset + P - 1 := by
    calc k * P + P = (k + 1) * P := by ring
      _ ≤ N - offset + P - 1 := hk1
  omega

lemma arangeNat_length (offset N P : ℕ) :
    (arangeNat offset N P).length = (N - offset + P - 1) / P := by
  unfold arangeNat
  rw [List.length_map, List.length_range]

/-- The `k`-th entry of `arangeNat offset N P` is `offset + k * P`. -/
lemma arangeNat_get (offset N P k : ℕ) (hk : k < (arangeNat offset N P).length) :
    (arangeNat offset N P).get ⟨k, hk⟩ = offset + k * P := by
  unfold arangeNat at hk ⊢
  simp

/-- The `k`-th entry of `arangeNat offset N P`, in bracket form. -/
lemma arangeNat_getElem (offset N P k : ℕ)
    (hk : k < (arangeNat offset N P).length) :
    (arangeNat offset N P)[k] = offset + k * P := by
  unfold arangeNat at hk ⊢
  simp

/-- The retained Poincaré samples for one amplitude in the bifurcation loop
(source lines 70–72): simulate for 200 periods with 100 points per period,
then select `theta_mod[np.arange(100*100, 200*100, 100)]`. -/
noncomputable def retainedSection (S : OdeSolver) (F0 : ℝ) : List ℝ :=
  (arangeNat (100 * 100) (200 * 100) 100).filterMap
    fun i => (simulate S F0 200 100).theta_mod[i]?

/-- The bifurcation sweep `bifurcation_diagram` (source lines 66–73): for each
`F0` in the range, in order, extend `theta_poincare` with the retained
stroboscopic samples and `F0_vals` with one copy of `F0` per retained index. -/
noncomputable def bifurcation_diagram (S : OdeSolver) (F0_range : List ℝ) :
    List ℝ × List ℝ :=
  F0_range.foldl
    (fun acc F0 =>
      (acc.1 ++ retainedSection S F0,
       acc.2 ++ List.replicate (arangeNat (100 * 100) (200 * 100) 100).length F0))
    ([], [])

lemma bifurcation_foldl (S : OdeSolver) :
    ∀ (r : List ℝ) (acc : List ℝ × List ℝ),
      r.foldl
        (fun acc F0 =>
          (acc.1 ++ retainedSection S F0,
           acc.2 ++ List.replicate (arangeNat (100 * 100) (200 * 100) 100).length F0))
        acc =
      (acc.1 ++ (r.map (retainedSection S)).flatten,
       acc.2 ++ (r.map fun F0 =>
        List.replicate (arangeNat (100 * 100) (200 * 100) 100).length F0).flatten) := by
  intro r
  induction r with
  | nil => intro acc; simp
  | cons F0 rest ih =>
    intro acc
    rw [List.foldl_cons, ih, List.map_cons, List.map_cons, List.flatten_cons, List.flatten_cons]
    simp [List.append_assoc]

lemma poincareSample_eq_map (traj : List ℝ) (P offset : ℕ) (hP : 0 < P) :
    poincareSample traj P offset =
      (arangeNat offset traj.length P).map fun i => traj.getD i 0 := by
  unfold poincareSample
  exact filterMap_getElem?_of_lt traj _ (arangeNat_mem_lt offset traj.length P hP)

lemma simulate_theta_mod_len_200_100 (S : OdeSolver) (F0 : ℝ) :
    (simulate S F0 200 100).theta_mod.length = 20000 := by
  rw [simulate_theta_mod_length S F0 200 100 (by norm_num)]
  rfl

lemma retainedSection_eq_map (S : OdeSolver) (F0 : ℝ) :
    retainedSection S F0 =
      (arangeNat (100 * 100) (200 * 100) 100).map
        fun i => (simulate S F0 200 100).theta_mod.getD i 0 := by
  unfold retainedSection
  apply filterMap_getElem?_of_lt
  intro i hi
  rw [simulate_theta_mod_len_200_100]
  have := arangeNat_mem_lt (100 * 100) (200 * 100) 100 (by norm_num) i hi
  omega

lemma retainedSection_length (S : OdeSolver) (F0 : ℝ) :
    (retainedSection S F0).length = 100 := by
  rw [retainedSection_eq_map, List.length_map, arangeNat_length]

lemma arange_neg (t_max : ℤ) (P : ℕ) (htm : t_max < 0) :
    arange 0 (t_max * T) (T / P) = [] := by
  rcases Nat.eq_zero_or_pos P with h0 | hP
  · subst h0
    unfold arange
    norm_num
  · rw [arange_pend t_max P hP]
    have h : (t_max * P).toNat = 0 := by
      apply Int.toNat_of_nonpos
      exact mul_nonpos_of_nonpos_of_nonneg htm.le (Int.natCast_nonneg P)
    rw [h]
    rfl

lemma rawTrajectory_neg (S : OdeSolver) (F0 : ℝ) (t_max : ℤ) (P : ℕ)
    (htm : t_max < 0) : rawTrajectory S F0 t_max P = [] := by
  have h := rawTrajectory_length S F0 t_max P
  rw [arange_neg t_max P htm] at h
  exact List.length_eq_zero.mp h

/-- Second-long concrete run used by witnesses: with one period and one point
per period, the time grid is the single point `0`. -/
lemma arange_one_one : arange 0 ((1 : ℤ) * T) (T / (1 : ℕ)) = [0] := by
  rw [arange_pend 1 1 one_pos, show ((1 : ℤ) * (1 : ℕ)).toNat = 1 from rfl,
    show List.range 1 = [0] from rfl]
  simp

lemma simulate_const_theta_mod (F0 : ℝ) :
    (simulate constSolver F0 1 1).theta_mod = [normAngle 0] := by
  unfold simulate rawTrajectory constSolver
  rw [arange_one_one]
  simp

lemma simulate_pi_theta_mod (F0 : ℝ) :
    (simulate piSolver F0 1 1).theta_mod = [normAngle Real.pi] := by
  unfold simulate rawTrajectory piSolver
  rw [arange_one_one]
  simp

/-- Modelled from the spec: §7 requires `simulate` to "fail fast with a
configuration error" when length, mass or `points_per_period` is non-positive
or `total_periods` is negative.  The source `simulate` (lines 25–33) contains
no such validation, so this checked variant exists only on the spec side, to
be compared with the unchecked source function. -/
noncomputable def simulateChecked (S : OdeSolver) (F0 : ℝ) (t_max : ℤ) (P : ℕ) :
    Except String SimResult :=
  if 0 < P ∧ 0 ≤ t_max ∧ 0 < l ∧ 0 < m then Except.ok (simulate S F0 t_max P)
  else Except.error "configuration error"

/-- C1 (counterexample): the source formula wraps the angle `pi` to `-pi`,
which violates the claimed strict lower bound `-pi < theta_mod`.  The
trajectory reported by `piSolver` contains the angle `pi`, so `simulate`
produces a normalized angle outside `(-pi, pi]`. -/
theorem C1_counterexample :
    normAngle Real.pi ∈ (simulate piSolver 0 1 1).theta_mod ∧
      ¬ (-Real.pi < normAngle Real.pi) := by
  constructor
  · rw [simulate_pi_theta_mod]
    exact List.mem_singleton.mpr rfl
  · rw [normAngle_pi]
    exact lt_irrefl _

/-- C1 (amended): for every trajectory produced by `simulate`, every
normalized angle `theta_mod` computed as `((theta + pi) mod 2 pi) - pi`
satisfies `-pi ≤ theta_mod < pi` (the half-open interval is `[-pi, pi)`,
not `(-pi, pi]` as claimed: the non-negative remainder lies in `[0, 2 pi)`). -/
theorem C1_normalization_range (S : OdeSolver) (F0 : ℝ) (t_max : ℤ) (P : ℕ)
    (x : ℝ) (hx : x ∈ (simulate S F0 t_max P).theta_mod) :
    -Real.pi ≤ x ∧ x < Real.pi := by
  have hmod : (simulate S F0 t_max P).theta_mod =
      ((rawTrajectory S F0 t_max P).map Prod.fst).map normAngle := rfl
  rw [hmod] at hx
  obtain ⟨θ, _, rfl⟩ := List.mem_map.mp hx
  exact normAngle_mem θ

/-- C1 (witness): the amended range theorem applied to the one-point run of
`simulate` with the constant solver, whose single normalized angle is
`normAngle 0`. -/
theorem C1_witness : -Real.pi ≤ normAngle 0 ∧ normAngle 0 < Real.pi :=
  C1_normalization_range constSolver 0 1 1 (normAngle 0)
    (by rw [simulate_const_theta_mod]; exact List.mem_singleton.mpr rfl)

/-- C2: for every state `(theta, theta_dot)`, time `t` and parameters with
`m > 0` and `l > 0`, `pendulum_deriv` returns the pair
`(theta_dot, -(b/m) theta_dot - (g/l) sin theta + (F0/(m l)) cos (omega_d t))`;
it is a pure function by construction. -/
theorem C2_state_derivative (state : ℝ × ℝ) (t : ℝ) (b' m' g' l' F0 ωd : ℝ)
    (_hm : 0 < m') (_hl : 0 < l') :
    pendulum_deriv state t b' m' g' l' F0 ωd =
      (state.2, -(b' / m') * state.2 - (g' / l') * Real.sin state.1
        + (F0 / (m' * l')) * Real.cos (ωd * t)) := by
  unfold pendulum_deriv
  congr 1
  ring

/-- C2 (witness): the state-derivative contract evaluated at the state
`(0, 0)`, time `0` and unit parameters. -/
theorem C2_witness :
    (0 : ℝ) < 1 ∧
      pendulum_deriv (0, 0) 0 1 1 1 1 1 1 =
        (0, -((1 : ℝ) / 1) * 0 - ((1 : ℝ) / 1) * Real.sin 0
          + ((1 : ℝ) / (1 * 1)) * Real.cos (1 * 0)) :=
  ⟨one_pos, C2_state_derivative (0, 0) 0 1 1 1 1 1 1 one_pos one_pos⟩

/-- C3: for every trajectory of length `N`, stride `P ≥ 1` and offset, the
stroboscopic sampler returns exactly the trajectory elements at indices
`offset, offset + P, offset + 2 P, …` below `N`, in that order; its length is
`len (range offset N P) = (N - offset + P - 1) / P`, and each selected index
is in bounds. -/
theorem C3_stroboscopic_sampler (traj : List ℝ) (P offset : ℕ) (hP : 1 ≤ P) :
    (poincareSample traj P offset).length = (traj.length - offset + P - 1) / P ∧
      ∀ k (hk : k < (poincareSample traj P offset).length),
        offset + k * P < traj.length ∧
          (poincareSample traj P offset).get ⟨k, hk⟩ =
            traj.getD (offset + k * P) 0 := by
  have hmap := poincareSample_eq_map traj P offset hP
  constructor
  · rw [hmap, List.length_map, arangeNat_length]
  · intro k hk
    have hk' : k < (arangeNat offset traj.length P).length := by
      rw [hmap, List.length_map] at hk
      exact hk
    have hbound : offset + k * P < traj.length := by
      have hmem : offset + k * P ∈ arangeNat offset traj.length P := by
        rw [← arangeNat_get offset traj.length P k hk']
        exact List.get_mem _ _ _
      exact arangeNat_mem_lt offset traj.length P hP _ hmem
    refine ⟨hbound, ?_⟩
    rw [List.get_eq_getElem]
    simp only [hmap, List.getElem_map]
    rw [arangeNat_getElem offset traj.length P k hk']

/-- C3 (witness): sampling the three-point trajectory `[0, 0, 0]` with stride
`1` and offset `1` yields two samples. -/
theorem C3_witness : (poincareSample [(0 : ℝ), 0, 0] 1 1).length = 2 :=
  (C3_stroboscopic_sampler [(0 : ℝ), 0, 0] 1 1 (le_refl 1)).1

/-- C4: the bifurcation sweep visits the amplitude range in the given order,
runs one 200-period simulation per amplitude, retains exactly the stroboscopic
samples with indices `100*100, 100*100 + 100, …` (discarding the first 100
transient periods), and produces exactly one group of 100 retained
`(amplitude, theta_mod)` entries per amplitude value. -/
theorem C4_bifurcation_coverage (S : OdeSolver) (F0_range : List ℝ) :
    (bifurcation_diagram S F0_range).1 =
        (F0_range.map (retainedSection S)).flatten ∧
      (bifurcation_diagram S F0_range).2 =
        (F0_range.map fun F0 => List.replicate 100 F0).flatten ∧
      ∀ F0 : ℝ, (retainedSection S F0).length = 100 := by
  have hlen : (arangeNat (100 * 100) (200 * 100) 100).length = 100 := by
    rw [arangeNat_length]
  unfold bifurcation_diagram
  rw [bifurcation_foldl]
  refine ⟨by simp, ?_, fun F0 => retainedSection_length S F0⟩
  rw [hlen]
  simp

/-- C5: for every `total_periods > 0` and `points_per_period ≥ 1`, the time
grid built by `simulate` starts at `0`, has uniform spacing
`dt = T / points_per_period > 0`, is strictly increasing, and has length
`total_periods * points_per_period` exactly (in the real-number model the
endpoint truncation of `arange` is exact). -/
theorem C5_time_grid (S : OdeSolver) (F0 : ℝ) (t_max : ℤ) (P : ℕ)
    (htm : 0 < t_max) (hP : 0 < P) :
    0 < T / P ∧
      (simulate S F0 t_max P).t.length = t_max.toNat * P ∧
      (∀ k (hk : k < (simulate S F0 t_max P).t.length),
        (simulate S F0 t_max P).t.get ⟨k, hk⟩ = k * (T / P)) ∧
      ∀ k (hk : k < (simulate S F0 t_max P).t.length)
        (hk1 : k + 1 < (simulate S F0 t_max P).t.length),
        (simulate S F0 t_max P).t.get ⟨k, hk⟩ <
            (simulate S F0 t_max P).t.get ⟨k + 1, hk1⟩ ∧
          (simulate S F0 t_max P).t.get ⟨k + 1, hk1⟩ -
              (simulate S F0 t_max P).t.get ⟨k, hk⟩ = T / P := by
  have hPpos : (0 : ℝ) < (P : ℝ) := Nat.cast_pos.mpr hP
  have hdt : 0 < T / P := div_pos T_pos hPpos
  have ht : (simulate S F0 t_max P).t = arange 0 (t_max * T) (T / P) := rfl
  have hget : ∀ k (hk : k < (simulate S F0 t_max P).t.length),
      (simulate S F0 t_max P).t.get ⟨k, hk⟩ = k * (T / P) := by
    intro k hk
    rw [List.get_eq_getElem]
    have hk2 : k < (arange 0 (t_max * T) (T / P)).length := hk
    simp only [ht, arange_pend t_max P hP] at hk2 ⊢
    rw [List.getElem_map]
    congr 1
    rw [List.getElem_range]
  refine ⟨hdt, ?_, hget, ?_⟩
  · obtain ⟨n, rfl⟩ : ∃ n : ℕ, t_max = (n : ℤ) :=
      ⟨t_max.toNat, (Int.toNat_of_nonneg htm.le).symm⟩
    rw [ht, arange_pend_length _ P hP,
      show ((n : ℤ) * (P : ℤ)) = ((n * P : ℕ) : ℤ) by push_cast; ring,
      Int.toNat_natCast, Int.toNat_natCast]
  · intro k hk hk1
    rw [hget k hk, hget (k + 1) hk1]
    constructor
    · have : (k : ℝ) < (k : ℝ) + 1 := by linarith
      calc (k : ℝ) * (T / P) < ((k : ℝ) + 1) * (T / P) := by
            exact (mul_lt_mul_right hdt).mpr this
        _ = ((k + 1 : ℕ) : ℝ) * (T / P) := by push_cast; ring
    · push_cast
      ring

/-- C5 (witness): the one-period, one-point-per-period grid has positive
spacing and a single sample. -/
theorem C5_witness :
    0 < T / ((1 : ℕ) : ℝ) ∧ (simulate constSolver 0 1 1).t.length = 1 :=
  ⟨(C5_time_grid constSolver 0 1 1 one_pos one_pos).1,
    (C5_time_grid constSolver 0 1 1 one_pos one_pos).2.1⟩

/-- C6: the angle normalization map is idempotent, so normalizing an
already-normalized trajectory yields the same values. -/
theorem C6_normalization_idempotent :
    (∀ θ : ℝ, normAngle (normAngle θ) = normAngle θ) ∧
      ∀ traj : List ℝ,
        (traj.map normAngle).map normAngle = traj.map normAngle := by
  refine ⟨normAngle_idem, fun traj => ?_⟩
  rw [List.map_map]
  exact List.map_congr_left fun θ _ => normAngle_idem θ

/-- C7 (counterexample): `total_periods = -1` is an invalid parameter, yet the
source `simulate` raises no configuration error: it silently returns the
empty result, while the spec-side checked variant rejects the same call. -/
theorem C7_counterexample :
    ¬ (0 ≤ (-1 : ℤ)) ∧
      (simulate constSolver 1 (-1) 100).t = [] ∧
      (simulate constSolver 1 (-1) 100).theta = [] ∧
      simulateChecked constSolver 1 (-1) 100 =
        Except.error "configuration error" := by
  refine ⟨by decide, ?_, ?_, ?_⟩
  · exact arange_neg (-1) 100 (by decide)
  · have h := rawTrajectory_neg constSolver 1 (-1) 100 (by decide)
    show (rawTrajectory constSolver 1 (-1) 100).map Prod.fst = []
    rw [h]
    rfl
  · unfold simulateChecked
    rw [if_neg]
    intro h
    exact absurd h.2.1 (by decide)

/-- C7 (amended): the source `simulate` performs no parameter validation at
all: invoked with a negative `total_periods` it does not fail with a
configuration error but silently returns four empty arrays (the time grid is
empty, so no integration step is performed, yet no error is reported). -/
theorem C7_no_validation (S : OdeSolver) (F0 : ℝ) (t_max : ℤ) (P : ℕ)
    (htm : t_max < 0) :
    (simulate S F0 t_max P).t = [] ∧
      (simulate S F0 t_max P).theta = [] ∧
      (simulate S F0 t_max P).theta_dot = [] ∧
      (simulate S F0 t_max P).theta_mod = [] := by
  have harr : arange 0 (t_max * T) (T / P) = [] := arange_neg t_max P htm
  have hraw : rawTrajectory S F0 t_max P = [] := rawTrajectory_neg S F0 t_max P htm
  refine ⟨harr, ?_, ?_, ?_⟩
  · show (rawTrajectory S F0 t_max P).map Prod.fst = []
    rw [hraw]; rfl
  · show (rawTrajectory S F0 t_max P).map Prod.snd = []
    rw [hraw]; rfl
  · show ((rawTrajectory S F0 t_max P).map Prod.fst).map normAngle = []
    rw [hraw]; rfl

/-- C7 (witness): the no-validation theorem applied at `total_periods = -1`. -/
theorem C7_witness :
    (-1 : ℤ) < 0 ∧ (simulate constSolver 1 (-1) 100).theta_mod = [] :=
  ⟨by decide, (C7_no_validation constSolver 1 (-1) 100 (by decide)).2.2.2⟩

/-- C8: `simulate` is deterministic: two invocations with equal parameters
`(F0, t_max, points_per_period)` against the same integrator produce equal
output arrays `(t, theta, theta_dot, theta_mod)`. -/
theorem C8_deterministic (S : OdeSolver) (F01 F02 : ℝ) (tm1 tm2 : ℤ)
    (P1 P2 : ℕ) (hF : F01 = F02) (ht : tm1 = tm2) (hP : P1 = P2) :
    (simulate S F01 tm1 P1).t = (simulate S F02 tm2 P2).t ∧
      (simulate S F01 tm1 P1).theta = (simulate S F02 tm2 P2).theta ∧
      (simulate S F01 tm1 P1).theta_dot = (simulate S F02 tm2 P2).theta_dot ∧
      (simulate S F01 tm1 P1).theta_mod = (simulate S F02 tm2 P2).theta_mod := by
  subst hF ht hP
  exact ⟨rfl, rfl, rfl, rfl⟩

/-- C8 (witness): determinism instantiated at two textually identical calls. -/
theorem C8_witness :
    (simulate constSolver 1 2 3).t = (simulate constSolver 1 2 3).t ∧
      (simulate constSolver 1 2 3).theta = (simulate constSolver 1 2 3).theta ∧
      (simulate constSolver 1 2 3).theta_dot =
        (simulate constSolver 1 2 3).theta_dot ∧
      (simulate constSolver 1 2 3).theta_mod =
        (simulate constSolver 1 2 3).theta_mod :=
  C8_deterministic constSolver 1 1 2 2 3 3 rfl rfl rfl

/-- C9: normalization is applied element-wise to the angle component only:
the angular-velocity output of `simulate` is exactly the velocity column of
the raw solver trajectory, `theta_mod` is the element-wise `normAngle` image
of `theta`, and the normalized array has the same length as the input. -/
theorem C9_normalizer_frame (S : OdeSolver) (F0 : ℝ) (t_max : ℤ) (P : ℕ) :
    (simulate S F0 t_max P).theta_dot =
        (rawTrajectory S F0 t_max P).map Prod.snd ∧
      (simulate S F0 t_max P).theta_mod =
        (simulate S F0 t_max P).theta.map normAngle ∧
      (simulate S F0 t_max P).theta_mod.length =
        (simulate S F0 t_max P).theta.length := by
  refine ⟨rfl, rfl, ?_⟩
  show (((rawTrajectory S F0 t_max P).map Prod.fst).map normAngle).length =
    ((rawTrajectory S F0 t_max P).map Prod.fst).length
  rw [List.length_map]

/-- C10: every stroboscopic index used by the bifurcation sweep
(`100*100, 100*100 + 100, …, < 200*100`) is strictly below the length of
`theta_mod` from `simulate F0 200` with 100 points per period, so the sweep's
fancy indexing is always in bounds. -/
theorem C10_sweep_indices_in_bounds (S : OdeSolver) (F0 : ℝ) (i : ℕ)
    (hi : i ∈ arangeNat (100 * 100) (200 * 100) 100) :
    i < (simulate S F0 200 100).theta_mod.length := by
  rw [simulate_theta_mod_len_200_100]
  have h := arangeNat_mem_lt (100 * 100) (200 * 100) 100 (by norm_num) i hi
  omega

/-- C10 (witness): the first sweep index `10000` is in bounds for the
20000-point trajectory. -/
theorem C10_witness :
    (10000 : ℕ) ∈ arangeNat (100 * 100) (200 * 100) 100 ∧
      10000 < (simulate constSolver 0 200 100).theta_mod.length := by
  have hmem : (10000 : ℕ) ∈ arangeNat (100 * 100) (200 * 100) 100 := by
    unfold arangeNat
    exact List.mem_map.mpr ⟨0, List.mem_range.mpr (by norm_num), by norm_num⟩
  exact ⟨hmem, C10_sweep_indices_in_bounds constSolver 0 10000 hmem⟩

end Pendulum
